import Mathlib

/-
Shallow embedding of the region-compositing pipeline in
src/src/model/pipeline_stablemultidiffusion_3.py.

Tensors are modelled per pixel over exact rationals; per-pixel elementwise
tensor operations become functions on rationals, the region axis becomes a
list, and the schedule axis becomes a list of noise coefficients.
-/

namespace SMD3

/-- Clamp a rational to the unit interval, modelling the tensor clip to the
range from 0 to 1 used throughout the pipeline. -/
def clip01 (x : ℚ) : ℚ := min (max x 0) 1

/-- Per-pixel model of scheduler_add_noise (source lines 606 to 631): when the
index satisfies idx < len(sigmas) and idx >= 0, the result is
(1 - sigmas[idx]) * latent + sigmas[idx] * noise, where a missing noise
argument is replaced by a freshly sampled value, modelled by the explicit
argument fresh; for any other index the latent is returned unchanged. -/
def scheduler_add_noise (sigmas : List ℚ) (latent : ℚ) (noise : Option ℚ)
    (fresh : ℚ) (idx : ℤ) : ℚ :=
  if idx < (sigmas.length : ℤ) ∧ 0 ≤ idx then
    (1 - sigmas.getD idx.toNat 0) * latent +
      sigmas.getD idx.toNat 0 * noise.getD fresh
  else latent

/-- Dimensions of the cached white-background latent: the attribute white of
the pipeline holds a latent of shape (1, 4, latH, latW), where latH is the
encoded image height divided by the vae scale factor. -/
structure WhiteCache where
  latH : ℕ
  latW : ℕ
deriving DecidableEq

/-- One call of get_white_background (source lines 382 to 404), returning
whether the white latent is re-encoded together with the cache state after the
call. The recompute condition of the source compares the cached latent
dimensions, white.shape[-2] and white.shape[-1], against the requested image
height and width; otherwise a crop of the cached latent is returned and the
cache is left unchanged. -/
def get_white_background (cache : Option WhiteCache)
    (vaeScaleFactor height width : ℕ) : Bool × WhiteCache :=
  match cache with
  | none => (true, ⟨height / vaeScaleFactor, width / vaeScaleFactor⟩)
  | some c =>
    if c.latH < height ∨ c.latW < width then
      (true, ⟨height / vaeScaleFactor, width / vaeScaleFactor⟩)
    else
      (false, c)

/-- Outcome of the early dispatch at the top of the main call
(source lines 755 to 766). -/
inductive CallDispatch (β : Type) where
  | returnBackground (bg : Option β)
  | sampleBackgroundPrompt
  | samplePrompts
  | runMultiDiffusion
deriving DecidableEq

/-- Early dispatch of the main call (source lines 761 to 766): with no prompts
the call returns the background argument, except when a background prompt alone
is given, in which case it samples from the background prompt; with prompts but
no masks it samples from the prompts; otherwise the full multi-diffusion loop
runs. A single prompt string of the source is modelled as a singleton list and
an empty string as the empty list. -/
def callDispatch {β : Type} (prompts : Option (List String))
    (masks : Option (List Unit)) (background : Option β)
    (backgroundPrompt : Option String) : CallDispatch β :=
  if prompts = none ∨ prompts = some [] then
    if background.isNone ∧ backgroundPrompt.isSome then
      CallDispatch.sampleBackgroundPrompt
    else
      CallDispatch.returnBackground background
  else if masks = none ∨ masks = some [] then
    CallDispatch.samplePrompts
  else
    CallDispatch.runMultiDiffusion

/-- Classifier-free guidance flag (source line 780): guidance is active only
when the guidance scale is strictly greater than 1. -/
def doClassifierFreeGuidance (scale : ℚ) : Bool := decide (1 < scale)

/-- Noise prediction used by the step (source lines 1035 and 1049 to 1051):
with guidance active the unconditional and conditional halves are combined by
uncond + scale * (cond - uncond); with guidance inactive the batch is not
doubled and the model output on the conditional embeddings is used directly. -/
def guidedNoisePred (scale uncond cond : ℚ) : ℚ :=
  if doClassifierFreeGuidance scale then uncond + scale * (cond - uncond)
  else cond

/-- Per-pixel discrete mask quantization over the whole schedule (source lines
548, 549 and 552 to 554): the blurred mask value is multiplied by the region
strength, replicated across the schedule axis, and compared against each noise
level. -/
def processMaskDiscretePixel (m strength : ℚ) (noiseLvs : List ℚ) :
    List Bool :=
  noiseLvs.map (fun lv => decide (lv < m * strength))

/-- Per-pixel discrete quantization at a single step (source line 554). -/
def quantizeDiscretePixel (m lv : ℚ) : Bool := decide (lv < m)

/-- Per-pixel continuous mask quantization at a single step (source lines 563
to 567): the mask value is remapped linearly between the next noise level and
the current noise level and clipped to the unit interval. -/
def quantizeContinuousPixel (m lv nextLv : ℚ) : ℚ :=
  clip01 ((m - nextLv) / (lv - nextLv))

/-- Per-pixel overlap decay (source lines 503 to 514): when the cover alpha is
strictly positive, the value of region i at a pixel is multiplied by alpha
whenever i is not the last region and the later regions have positive total
coverage at that pixel; when the cover alpha is not positive the whole decay
step is skipped and the masks are returned unchanged. -/
def coverDecayPixel (alpha : ℚ) (masks : List ℚ) : List ℚ :=
  if 0 < alpha then
    (List.range masks.length).map (fun i =>
      if i + 1 < masks.length ∧ 0 < (masks.drop (i + 1)).sum then
        masks.getD i 0 * alpha
      else
        masks.getD i 0)
  else masks

/-- Value accumulator of one compositor step at one pixel (source line 1070):
each region contributes its effective mask weight times its denoised latent. -/
def accumValue (regions : List (ℚ × ℚ)) : ℚ :=
  (regions.map (fun r => r.1 * r.2)).sum

/-- Weight accumulator of one compositor step at one pixel (source line 1071):
each region contributes its effective mask weight. -/
def accumCount (regions : List (ℚ × ℚ)) : ℚ :=
  (regions.map (fun r => r.1)).sum

/-- Guarded merge of one compositor step at one pixel (source line 1073),
modelling torch.where on the condition that the accumulated count is positive:
the value accumulator is divided by the count where the count is positive and
returned unchanged elsewhere. -/
def mergeLatent (value count : ℚ) : ℚ :=
  if 0 < count then value / count else value

/-- A list of nonnegative rationals has positive sum exactly when one of its
entries is positive. -/
lemma sum_pos_iff_exists_pos : ∀ (l : List ℚ), (∀ x ∈ l, 0 ≤ x) →
    (0 < l.sum ↔ ∃ x ∈ l, 0 < x)
  | [], _ => by simp
  | a :: l, h => by
    have ha : 0 ≤ a := h a (List.mem_cons_self a l)
    have hl : ∀ x ∈ l, 0 ≤ x := fun x hx => h x (List.mem_cons_of_mem a hx)
    have hsum : 0 ≤ l.sum := List.sum_nonneg hl
    have ih := sum_pos_iff_exists_pos l hl
    constructor
    · intro hpos
      by_cases hA : 0 < a
      · exact ⟨a, List.mem_cons_self a l, hA⟩
      · have ha0 : a = 0 := le_antisymm (not_lt.mp hA) ha
        have : 0 < l.sum := by
          simpa [List.sum_cons, ha0] using hpos
        obtain ⟨x, hx, hxpos⟩ := ih.mp this
        exact ⟨x, List.mem_cons_of_mem a hx, hxpos⟩
    · rintro ⟨x, hx, hxpos⟩
      rcases List.mem_cons.mp hx with rfl | hx
      · have : (0 : ℚ) < x + l.sum := lt_of_lt_of_le hxpos (by linarith)
        simpa [List.sum_cons] using this
      · have : 0 < l.sum := ih.mpr ⟨x, hx, hxpos⟩
        have : (0 : ℚ) < a + l.sum := by linarith
        simpa [List.sum_cons] using this

/-- A list of nonnegative rationals with zero sum has every entry zero. -/
lemma all_zero_of_sum_eq_zero : ∀ (l : List ℚ), (∀ x ∈ l, 0 ≤ x) →
    l.sum = 0 → ∀ x ∈ l, x = 0
  | [], _, _ => by simp
  | a :: l, h, hsum => by
    have ha : 0 ≤ a := h a (List.mem_cons_self a l)
    have hl : ∀ x ∈ l, 0 ≤ x := fun x hx => h x (List.mem_cons_of_mem a hx)
    have hs : 0 ≤ l.sum := List.sum_nonneg hl
    have hsum' : a + l.sum = 0 := by simpa [List.sum_cons] using hsum
    have ha0 : a = 0 := by linarith
    have hl0 : l.sum = 0 := by linarith
    intro x hx
    rcases List.mem_cons.mp hx with rfl | hx
    · exact ha0
    · exact all_zero_of_sum_eq_zero l hl hl0 x hx

/-- Effective per-region weight used by the accumulators of one compositor
step (source lines 1059 to 1069): during bootstrap steps the mask slice is
multiplied by the leakage score, which depends on the step, the incoming shared
latent and the region itself; outside bootstrap the weight is unchanged. The
single-tile case has tile weight 1. -/
def effectiveWeight {R : Type} (leak : ℕ → ℚ → R → ℚ) (bootstrapSteps : ℕ)
    (w : ℚ) (i : ℕ) (lat : ℚ) (r : R) : ℚ :=
  if i < bootstrapSteps then w * leak i lat r else w

/-- Per-region weights of one compositor step at one pixel: the raw region
masks pass through the overlap decay (source lines 503 to 514), then through
the remaining per-region mask processing, blur, strength scaling and step
quantization, modelled by the per-step function q applied to the decayed value
(source lines 541 to 577), and finally through the bootstrap leakage
multiplication (source line 1066). -/
def stepWeights {R : Type} (alpha : ℚ) (q : ℕ → ℚ → ℚ) (rawOf : R → ℚ)
    (leak : ℕ → ℚ → R → ℚ) (bootstrapSteps : ℕ) (rs : List R) (i : ℕ)
    (lat : ℚ) : List ℚ :=
  List.zipWith (fun w r => effectiveWeight leak bootstrapSteps w i lat r)
    ((coverDecayPixel alpha (rs.map rawOf)).map (q i)) rs

/-- Merge of one compositor step at one pixel (source lines 1073 to 1076):
the guarded divide, then, when a known background exists, blending the
background latent of the next step into the uncovered area, whose mask is the
clipped complement of the accumulated count. -/
def compositeMerge (value count bgNext : ℚ) (hasBg : Bool) : ℚ :=
  if hasBg then
    (1 - clip01 (1 - count)) * mergeLatent value count +
      clip01 (1 - count) * bgNext
  else mergeLatent value count

/-- One compositor step at one pixel (source lines 1015 to 1076, single tile):
every region contributes weight times denoised latent to the value accumulator
and weight to the count accumulator, where the per-region denoised latent is
given by the external denoiser pipeline f applied to the step, the incoming
shared latent and the region; the accumulators are then merged. -/
def compositePixelStep {R : Type} (alpha : ℚ) (q : ℕ → ℚ → ℚ) (rawOf : R → ℚ)
    (f leak : ℕ → ℚ → R → ℚ) (bootstrapSteps : ℕ) (rs : List R)
    (bg : ℕ → ℚ) (hasBg : Bool) (i : ℕ) (lat : ℚ) : ℚ :=
  compositeMerge
    ((List.zipWith (fun w r => w * f i lat r)
      (stepWeights alpha q rawOf leak bootstrapSteps rs i lat) rs).sum)
    ((stepWeights alpha q rawOf leak bootstrapSteps rs i lat).sum)
    (bg (i + 1)) hasBg

/-- The whole per-pixel compositor loop (source lines 1007 to 1080): starting
from the initial latent, every schedule step merges the per-region results and,
except after the last step, renoises the merged latent to the next step with a
freshly sampled noise value. -/
def runPixel {R : Type} (alpha : ℚ) (q : ℕ → ℚ → ℚ) (rawOf : R → ℚ)
    (f leak : ℕ → ℚ → R → ℚ) (bootstrapSteps : ℕ) (rs : List R)
    (bg : ℕ → ℚ) (hasBg : Bool) (noise : ℕ → ℚ) (sigmas : List ℚ)
    (lat0 : ℚ) : ℚ :=
  (List.range sigmas.length).foldl
    (fun lat i =>
      if i + 1 < sigmas.length then
        scheduler_add_noise sigmas
          (compositePixelStep alpha q rawOf f leak bootstrapSteps rs bg hasBg
            i lat)
          none (noise i) ((i : ℤ) + 1)
      else
        compositePixelStep alpha q rawOf f leak bootstrapSteps rs bg hasBg
          i lat)
    lat0

/-- Zipping a mapped copy of a list with the list itself is a map. -/
lemma zipWith_map_self {α β γ : Type} (g : β → α → γ) (h : α → β) :
    ∀ l : List α, List.zipWith g (l.map h) l = l.map (fun a => g (h a) a)
  | [] => rfl
  | a :: l => by
    simp only [List.map_cons, List.zipWith_cons_cons,
      zipWith_map_self g h l]

/-- With overlap-decay factor 0 the decay is skipped, so the step weights are
a per-region map. -/
lemma stepWeights_zero {R : Type} (q : ℕ → ℚ → ℚ) (rawOf : R → ℚ)
    (leak : ℕ → ℚ → R → ℚ) (bootstrapSteps : ℕ) (rs : List R) (i : ℕ)
    (lat : ℚ) :
    stepWeights 0 q rawOf leak bootstrapSteps rs i lat =
      rs.map (fun r =>
        effectiveWeight leak bootstrapSteps (q i (rawOf r)) i lat r) := by
  unfold stepWeights coverDecayPixel
  rw [if_neg (lt_irrefl 0), List.map_map, zipWith_map_self]
  rfl

/-- With overlap-decay factor 0, one compositor step at one pixel is invariant
under permutation of the region list. -/
lemma compositePixelStep_perm {R : Type} (q : ℕ → ℚ → ℚ) (rawOf : R → ℚ)
    (f leak : ℕ → ℚ → R → ℚ) (bootstrapSteps : ℕ) (bg : ℕ → ℚ)
    (hasBg : Bool) {rs₁ rs₂ : List R} (hperm : rs₁.Perm rs₂) (i : ℕ)
    (lat : ℚ) :
    compositePixelStep 0 q rawOf f leak bootstrapSteps rs₁ bg hasBg i lat =
      compositePixelStep 0 q rawOf f leak bootstrapSteps rs₂ bg hasBg
        i lat := by
  unfold compositePixelStep
  rw [stepWeights_zero, stepWeights_zero, zipWith_map_self, zipWith_map_self]
  rw [(hperm.map (fun r =>
      effectiveWeight leak bootstrapSteps (q i (rawOf r)) i lat r *
        f i lat r)).sum_eq,
    (hperm.map (fun r =>
      effectiveWeight leak bootstrapSteps (q i (rawOf r)) i lat r)).sum_eq]

/-- C6: with overlap-decay factor 0, the final composited pixel value after
the whole schedule is invariant under permutation of the region list, assuming
the external denoiser processes the batched regions independently; the
per-region denoiser result, leakage score and processed mask are modelled by
the per-region functions f, leak, q and rawOf. -/
theorem C6_permutation_invariance {R : Type} (q : ℕ → ℚ → ℚ) (rawOf : R → ℚ)
    (f leak : ℕ → ℚ → R → ℚ) (bootstrapSteps : ℕ) (bg : ℕ → ℚ)
    (hasBg : Bool) (noise : ℕ → ℚ) (sigmas : List ℚ) (lat0 : ℚ)
    {rs₁ rs₂ : List R} (hperm : rs₁.Perm rs₂) :
    runPixel 0 q rawOf f leak bootstrapSteps rs₁ bg hasBg noise sigmas lat0 =
      runPixel 0 q rawOf f leak bootstrapSteps rs₂ bg hasBg noise sigmas
        lat0 := by
  unfold runPixel
  apply List.foldl_ext
  intro lat i _
  rw [compositePixelStep_perm q rawOf f leak bootstrapSteps bg hasBg hperm
    i lat]

/-- Witness for C6 at a concrete input: two regions in the two possible orders
produce the same composited pixel value. -/
theorem C6_permutation_invariance_witness :
    runPixel 0 (fun _ x => x) (fun x => x) (fun _ _ r => r) (fun _ _ _ => 1) 0
        [(1 : ℚ), 2] (fun _ => 0) false (fun _ => 0) [1/2] 0 =
      runPixel 0 (fun _ x => x) (fun x => x) (fun _ _ r => r) (fun _ _ _ => 1)
        0 [(2 : ℚ), 1] (fun _ => 0) false (fun _ => 0) [1/2] 0 :=
  C6_permutation_invariance (fun _ x => x) (fun x => x) (fun _ _ r => r)
    (fun _ _ _ => 1) 0 (fun _ => 0) false (fun _ => 0) [1/2] 0
    (List.Perm.swap 2 1 [])

/-- Python equality between a tensor shape, which is a tuple, and an int: a
tuple never compares equal to an int, so the comparison evaluates to False for
every shape and every number; this models the expression comparing fe.shape
with num_prompts at source line 936. -/
def pyShapeEqInt (_shape : List ℕ) (_n : ℕ) : Bool := false

/-- Batch-axis tensor repeat, as in the torch repeat call with leading factor
n: the batch list is concatenated n times. -/
def pyRepeat {α : Type} (l : List α) (n : ℕ) : List α :=
  (List.replicate n l).flatten

/-- Prompt count validation (source lines 796 to 802): the number of prompts
must equal the number of masks or be 1, and the number of negative prompts
must equal the number of prompts or be 1; a violated assertion reports the two
conflicting counts, which are modelled as the error value. -/
def validatePromptCounts (numMasks numPrompts numNprompts : ℕ) :
    Except (ℕ × ℕ) Unit :=
  if numPrompts = numMasks ∨ numPrompts = 1 then
    if numNprompts = numPrompts ∨ numNprompts = 1 then Except.ok ()
    else Except.error (numNprompts, numPrompts)
  else Except.error (numPrompts, numMasks)

/-- Embedding broadcast (source lines 914 to 968) at the granularity of one
scalar per prompt embedding; an error models a raised AssertionError. With a
background, the head embedding is the background embedding and the remaining
ones are lerped against it with strength s; a single negative embedding for
several prompts is repeated, guarded by the assertion at source line 936 whose
second conjunct compares a shape tuple with an int; without a background the
same repeat is guarded by the assertions at source lines 952 to 958, which
compare batch dimensions properly; finally a single prompt embedding is
repeated across the masks, guarded by the assertion at source line 961. The
negative embedding list is present exactly when classifier-free guidance is
active. -/
def prepareEmbeds (hasBackground : Bool) (numMasks numPrompts numNprompts : ℕ)
    (s : ℚ) (pe : List ℚ) (ne : Option (List ℚ)) :
    Except Unit (List ℚ × Option (List ℚ)) :=
  let step1 : Except Unit (List ℚ × Option (List ℚ)) :=
    if hasBackground then
      let be := pe.headD 0
      let fe := pe.drop 1
      let pe1 := fe.map (fun x => be + s * (x - be))
      match ne with
      | none => Except.ok (pe1, none)
      | some nel =>
        let bu := nel.headD 0
        let fu := nel.drop 1
        if numNprompts < numPrompts then
          if fu.length = 1 ∧ pyShapeEqInt [fe.length] numPrompts = true then
            Except.ok (pe1,
              some ((pyRepeat fu numPrompts).map (fun x => bu + s * (x - bu))))
          else Except.error ()
        else Except.ok (pe1, some (fu.map (fun x => bu + s * (x - bu))))
    else
      match ne with
      | none => Except.ok (pe, none)
      | some nel =>
        if numNprompts < numPrompts then
          if nel.length = 1 ∧ pe.length = numPrompts then
            Except.ok (pe, some (pyRepeat nel numPrompts))
          else Except.error ()
        else Except.ok (pe, some nel)
  match step1 with
  | Except.error e => Except.error e
  | Except.ok (pe2, ne2) =>
    if numPrompts < numMasks then
      if numPrompts = 1 then
        Except.ok (pyRepeat pe2 numMasks,
          ne2.map (fun l => pyRepeat l numMasks))
      else Except.error ()
    else Except.ok (pe2, ne2)

/-- C9: evaluation at the failing input. With a background, classifier-free
guidance active, two positive prompts and a single negative prompt, the count
validation accepts the configuration and the source intends to broadcast the
single negative embedding to both prompts, as its own comment at source line
935 states; but the assertion at source line 936 compares a shape tuple with
an int, which is always False in Python, so the call raises an AssertionError
instead of proceeding. The single-positive-prompt broadcast path itself works:
with one prompt and two masks the prompt embedding is repeated across both
masks. -/
theorem C9_single_negative_broadcast_crashes :
    validatePromptCounts 2 2 1 = Except.ok () ∧
      prepareEmbeds true 2 2 1 1 [0, 1, 2] (some [0, 3]) = Except.error () ∧
      prepareEmbeds false 2 1 1 1 [5] (some [7]) =
        Except.ok ([5, 5], some [7, 7]) := by
  refine ⟨rfl, rfl, ?_⟩
  rfl

/-- C2: scheduler_add_noise returns (1 - sigma[idx]) * latent + sigma[idx] *
noise whenever 0 <= idx < T, sampling fresh noise when none is supplied, and
returns the latent unchanged for any index outside that range. -/
theorem C2_scheduler_add_noise_spec (sigmas : List ℚ) (latent : ℚ)
    (noise : Option ℚ) (fresh : ℚ) (idx : ℤ) :
    (0 ≤ idx → idx < (sigmas.length : ℤ) →
      scheduler_add_noise sigmas latent noise fresh idx =
        (1 - sigmas.getD idx.toNat 0) * latent +
          sigmas.getD idx.toNat 0 * noise.getD fresh) ∧
    (idx < 0 ∨ (sigmas.length : ℤ) ≤ idx →
      scheduler_add_noise sigmas latent noise fresh idx = latent) := by
  constructor
  · intro h0 hT
    unfold scheduler_add_noise
    rw [if_pos ⟨hT, h0⟩]
  · intro h
    unfold scheduler_add_noise
    rw [if_neg]
    rcases h with h | h
    · exact fun hc => absurd hc.2 (not_le.mpr h)
    · exact fun hc => absurd hc.1 (not_lt.mpr h)

/-- Witness for C2 at concrete inputs: with sigma list containing 1/2, index 0
is in range and produces the convex combination, whereas index -1 is out of
range and is the identity. -/
theorem C2_scheduler_add_noise_spec_witness :
    scheduler_add_noise [1/2] 10 none 4 0 = 7 ∧
      scheduler_add_noise [1/2] 10 none 4 (-1) = 10 := by
  constructor
  · have h := (C2_scheduler_add_noise_spec [1/2] 10 none 4 0).1
      (by decide) (by decide)
    rw [h]
    norm_num
  · exact (C2_scheduler_add_noise_spec [1/2] 10 none 4 (-1)).2 (by decide)

/-- C1: in discrete mode, with strictly decreasing noise levels, per-region
coverage is monotonically non-decreasing in the step index: a pixel whose
quantized mask is true at step t is also true at step t + 1. -/
theorem C1_discrete_coverage_monotone (m strength : ℚ) (noiseLvs : List ℚ)
    (hdec : noiseLvs.Chain' (fun a b => b < a)) (t : ℕ)
    (ht : t + 1 < noiseLvs.length)
    (htrue : (processMaskDiscretePixel m strength noiseLvs).getD t false
      = true) :
    (processMaskDiscretePixel m strength noiseLvs).getD (t + 1) false
      = true := by
  have hlen : (processMaskDiscretePixel m strength noiseLvs).length
      = noiseLvs.length := by
    simp [processMaskDiscretePixel]
  have ht0 : t < noiseLvs.length := Nat.lt_of_succ_lt ht
  have h1 : (processMaskDiscretePixel m strength noiseLvs).getD t false
      = decide (noiseLvs[t] < m * strength) := by
    rw [List.getD_eq_getElem _ _ (by rw [hlen]; exact ht0)]
    simp [processMaskDiscretePixel]
  have h2 : (processMaskDiscretePixel m strength noiseLvs).getD (t + 1) false
      = decide (noiseLvs[t + 1] < m * strength) := by
    rw [List.getD_eq_getElem _ _ (by rw [hlen]; exact ht)]
    simp [processMaskDiscretePixel]
  rw [h1] at htrue
  rw [h2]
  have hmono : noiseLvs[t + 1] < noiseLvs[t] := by
    have := List.chain'_iff_get.mp hdec t (by omega)
    simpa using this
  simp only [decide_eq_true_eq] at htrue ⊢
  exact lt_trans hmono htrue

/-- Witness for C1 at a concrete input: with strictly decreasing noise levels
3/4 and 1/2 and a mask value of 1, coverage at step 0 implies coverage at
step 1. -/
theorem C1_discrete_coverage_monotone_witness :
    (processMaskDiscretePixel 1 1 [3/4, 1/2]).getD 1 false = true :=
  C1_discrete_coverage_monotone 1 1 [3/4, 1/2]
    (List.chain'_pair.mpr (by norm_num)) 0 (by simp)
    (by norm_num [processMaskDiscretePixel, List.getD_cons_zero])

/-- C3: at every compositor step and pixel, with nonnegative effective region
weights, the merged latent is value divided by count where the accumulated
count is strictly positive, and at a zero-count pixel the guarded where
returns the raw accumulated value, which is itself zero; in this exact model
the zero-count branch never evaluates a division by zero. -/
theorem C3_merge_guarded (regions : List (ℚ × ℚ))
    (hnn : ∀ r ∈ regions, 0 ≤ r.1) :
    (0 < accumCount regions →
      mergeLatent (accumValue regions) (accumCount regions) =
        accumValue regions / accumCount regions) ∧
    (accumCount regions = 0 →
      mergeLatent (accumValue regions) (accumCount regions) =
        accumValue regions ∧ accumValue regions = 0) := by
  constructor
  · intro h
    unfold mergeLatent
    rw [if_pos h]
  · intro h
    have hm : mergeLatent (accumValue regions) (accumCount regions)
        = accumValue regions := by
      unfold mergeLatent
      rw [if_neg (by rw [h]; exact lt_irrefl 0)]
    refine ⟨hm, ?_⟩
    unfold accumCount at h
    have hw : ∀ x ∈ regions.map (fun r => r.1), x = 0 :=
      all_zero_of_sum_eq_zero _
        (by
          intro x hx
          obtain ⟨r, hr, rfl⟩ := List.mem_map.mp hx
          exact hnn r hr) h
    unfold accumValue
    apply List.sum_eq_zero
    intro x hx
    obtain ⟨r, hr, rfl⟩ := List.mem_map.mp hx
    have hr0 : r.1 = 0 := hw r.1 (List.mem_map.mpr ⟨r, hr, rfl⟩)
    rw [hr0, zero_mul]

/-- Witness for C3 at concrete inputs: a single region of weight 1 and latent 2
has positive count and merges to the quotient, and a single region of weight 0
merges to the raw accumulated value 0. -/
theorem C3_merge_guarded_witness :
    (mergeLatent (accumValue [((1 : ℚ), (2 : ℚ))])
        (accumCount [((1 : ℚ), (2 : ℚ))]) =
      accumValue [((1 : ℚ), (2 : ℚ))] / accumCount [((1 : ℚ), (2 : ℚ))]) ∧
    (mergeLatent (accumValue [((0 : ℚ), (5 : ℚ))])
        (accumCount [((0 : ℚ), (5 : ℚ))]) =
      accumValue [((0 : ℚ), (5 : ℚ))] ∧
      accumValue [((0 : ℚ), (5 : ℚ))] = 0) :=
  ⟨(C3_merge_guarded [(1, 2)] (by norm_num)).1 (by norm_num [accumCount]),
    (C3_merge_guarded [(0, 5)] (by norm_num)).2 (by norm_num [accumCount])⟩

/-- C4 counterexample: with overlap-decay factor 0 the source skips the decay
step entirely, so a region covered by a later region keeps its value instead of
being multiplied by 0: with masks [1, 1] the first region keeps the value 1,
whereas the claim demands the product 0 * 1 = 0. -/
theorem C4_cover_decay_alpha_zero_counterexample :
    (coverDecayPixel 0 [1, 1]).getD 0 0 = 1 ∧ ((1 : ℚ)) ≠ 0 * 1 := by
  constructor
  · unfold coverDecayPixel
    rw [if_neg (lt_irrefl 0)]
    rfl
  · norm_num

/-- C4 amended: for a strictly positive overlap-decay factor alpha of at most
1 and nonnegative masks, region i is multiplied by alpha exactly at the pixels
where some later region has positive coverage, is unchanged at pixels where
every later region vanishes (in particular the last region is never modified);
for factor 0 the decay step is skipped and every mask is unchanged. -/
theorem C4_cover_decay (alpha : ℚ) (masks : List ℚ) (h0 : 0 < alpha)
    (_ha1 : alpha ≤ 1) (hnn : ∀ x ∈ masks, 0 ≤ x) (i : ℕ)
    (hi : i < masks.length) :
    ((∃ x ∈ masks.drop (i + 1), 0 < x) →
        (coverDecayPixel alpha masks).getD i 0 = masks.getD i 0 * alpha) ∧
    ((∀ x ∈ masks.drop (i + 1), x = 0) →
        (coverDecayPixel alpha masks).getD i 0 = masks.getD i 0) ∧
    coverDecayPixel 0 masks = masks := by
  have hget : (coverDecayPixel alpha masks).getD i 0 =
      (if i + 1 < masks.length ∧ 0 < (masks.drop (i + 1)).sum then
        masks.getD i 0 * alpha
      else masks.getD i 0) := by
    unfold coverDecayPixel
    rw [if_pos h0]
    rw [List.getD_eq_getElem _ _ (by simpa using hi)]
    simp
  refine ⟨?_, ?_, ?_⟩
  · rintro ⟨x, hx, hxpos⟩
    have hdropnn : ∀ y ∈ masks.drop (i + 1), 0 ≤ y := fun y hy =>
      hnn y (List.drop_subset _ _ hy)
    have hsum : 0 < (masks.drop (i + 1)).sum :=
      (sum_pos_iff_exists_pos _ hdropnn).mpr ⟨x, hx, hxpos⟩
    have hlt : i + 1 < masks.length := by
      by_contra hle
      have hnil : masks.drop (i + 1) = [] :=
        List.drop_eq_nil_of_le (by omega)
      rw [hnil] at hx
      exact absurd hx (List.not_mem_nil x)
    rw [hget, if_pos ⟨hlt, hsum⟩]
  · intro hz
    have hsum : (masks.drop (i + 1)).sum = 0 := List.sum_eq_zero hz
    rw [hget, if_neg]
    rintro ⟨-, hpos⟩
    rw [hsum] at hpos
    exact lt_irrefl 0 hpos
  · unfold coverDecayPixel
    rw [if_neg (lt_irrefl 0)]

/-- Witness for C4 at concrete inputs: with factor 1/2 and masks [2, 3], the
first region is decayed to 2 * (1/2) because the later region has positive
coverage, and the last region keeps its value 3. -/
theorem C4_cover_decay_witness :
    (coverDecayPixel (1/2) [2, 3]).getD 0 0 = 2 * (1/2) ∧
      (coverDecayPixel (1/2) [2, 3]).getD 1 0 = 3 := by
  constructor
  · exact (C4_cover_decay (1/2) [2, 3] (by norm_num) (by norm_num)
      (by norm_num) 0 (by simp)).1 ⟨3, by simp, by norm_num⟩
  · have h := (C4_cover_decay (1/2) [2, 3] (by norm_num) (by norm_num)
      (by norm_num) 1 (by simp)).2.1 (by intro x hx; simp at hx)
    rw [h]
    rfl

/-- C5 counterexample: at a pixel whose mask value equals the current noise
level exactly, the continuous mask is 1 while the discrete mask is false, so
the continuous mode does not have exactly the same full-coverage set as the
strict comparison of the discrete mode: with mask value 1/2, noise level 1/2
and next level 1/4 the continuous value is 1 but the discrete bit is false. -/
theorem C5_continuous_boundary_counterexample :
    quantizeContinuousPixel (1/2) (1/2) (1/4) = 1 ∧
      quantizeDiscretePixel (1/2) (1/2) = false := by
  constructor
  · unfold quantizeContinuousPixel clip01
    have h1 : ((1 : ℚ)/2 - 1/4) / ((1 : ℚ)/2 - 1/4) = 1 := by norm_num
    rw [h1, max_eq_left (by norm_num : (0 : ℚ) ≤ 1), min_self]
  · norm_num [quantizeDiscretePixel]

/-- C5 amended: with the next noise level strictly below the current one, the
continuous mask equals 1 exactly at the pixels where the mask value is at
least the current noise level; hence every pixel covered in discrete mode is
fully covered in continuous mode, and away from the boundary value, where the
mask value differs from the noise level, full continuous coverage coincides
with discrete coverage. -/
theorem C5_continuous_quantization (m lv nextLv : ℚ) (h : nextLv < lv) :
    (quantizeContinuousPixel m lv nextLv = 1 ↔ lv ≤ m) ∧
    (quantizeDiscretePixel m lv = true →
      quantizeContinuousPixel m lv nextLv = 1) ∧
    (m ≠ lv →
      (quantizeContinuousPixel m lv nextLv = 1 ↔
        quantizeDiscretePixel m lv = true)) := by
  have hpos : 0 < lv - nextLv := sub_pos.mpr h
  have key : quantizeContinuousPixel m lv nextLv = 1 ↔ lv ≤ m := by
    unfold quantizeContinuousPixel clip01
    constructor
    · intro h1
      have h2 : 1 ≤ max ((m - nextLv) / (lv - nextLv)) 0 := by
        by_contra hc
        push_neg at hc
        have hlt : min (max ((m - nextLv) / (lv - nextLv)) 0) 1 < 1 :=
          lt_of_le_of_lt (min_le_left _ _) hc
        rw [h1] at hlt
        exact lt_irrefl 1 hlt
      have h3 : 1 ≤ (m - nextLv) / (lv - nextLv) := by
        rcases le_max_iff.mp h2 with h3 | h3
        · exact h3
        · linarith
      have h4 := (one_le_div hpos).mp h3
      linarith
    · intro hle
      have h3 : 1 ≤ (m - nextLv) / (lv - nextLv) :=
        (one_le_div hpos).mpr (by linarith)
      exact min_eq_right (le_max_of_le_left h3)
  refine ⟨key, ?_, ?_⟩
  · intro hd
    exact key.mpr (le_of_lt (of_decide_eq_true hd))
  · intro hne
    constructor
    · intro h1
      have hle := key.mp h1
      have hlt : lv < m := lt_of_le_of_ne hle (fun e => hne e.symm)
      exact decide_eq_true hlt
    · intro hd
      exact key.mpr (le_of_lt (of_decide_eq_true hd))

/-- Witness for C5 amended at a concrete input: with mask value 3/4 above the
noise level 1/2 and next level 1/4, the continuous mask is 1. -/
theorem C5_continuous_quantization_witness :
    quantizeContinuousPixel (3/4) (1/2) (1/4) = 1 :=
  (C5_continuous_quantization (3/4) (1/2) (1/4) (by norm_num)).1.mpr
    (by norm_num)

/-- C8: evaluation at the failing input. Pipeline initialisation caches the
white latent of a 1024 by 1024 image, which has latent dimensions 128 by 128
with vae scale factor 8. A second request for the very same 1024 by 1024 size
re-encodes instead of reusing the cached latent, because the source compares
the cached latent dimensions (128) against the requested image dimensions
(1024), contradicting its own docstring which promises a crop of the stored
latent whenever the requested size is not larger than what was created. -/
theorem C8_white_cache_recomputes_on_seen_size :
    (get_white_background (some ⟨128, 128⟩) 8 1024 1024).1 = true := by
  decide

/-- C10: when the prompts argument is none or the empty list and no background
prompt is given, the main call dispatches to returning the background argument
unchanged, reaching neither the sampler nor the multi-diffusion loop; the
dispatch happens before any pipeline state is touched. -/
theorem C10_early_return_background {β : Type}
    (prompts : Option (List String)) (masks : Option (List Unit))
    (background : Option β) (h : prompts = none ∨ prompts = some []) :
    callDispatch prompts masks background none =
      CallDispatch.returnBackground background := by
  rcases h with h | h <;> subst h <;> simp [callDispatch]

/-- Witness for C10 at a concrete input: no prompts, two masks, a background
value 5 and no background prompt return the background value 5. -/
theorem C10_early_return_background_witness :
    callDispatch none (some [(), ()]) (some (5 : ℚ)) none =
      CallDispatch.returnBackground (some (5 : ℚ)) :=
  C10_early_return_background none (some [(), ()]) (some (5 : ℚ)) (Or.inl rfl)

/-- C7 counterexample: with guidance scale 0, classifier-free guidance is
disabled, since the source activates it only for scales strictly greater
than 1, so the prediction used by the step is the conditional prediction, not
the unconditional one: with unconditional prediction 1 and conditional
prediction 2 the step uses 2. -/
theorem C7_guidance_scale_zero_uses_cond :
    guidedNoisePred 0 1 2 = 2 ∧ guidedNoisePred 0 1 2 ≠ 1 := by
  decide

/-- C7 amended: when guidance is active, that is for scale strictly greater
than 1, the prediction is uncond + scale * (cond - uncond); when guidance is
not active, in particular at scale 0, the prediction used by the step is the
conditional prediction; the guidance formula itself evaluates to the
unconditional prediction at scale 0. -/
theorem C7_guidance_rule (scale uncond cond : ℚ) :
    (1 < scale →
      guidedNoisePred scale uncond cond = uncond + scale * (cond - uncond)) ∧
    (¬ 1 < scale → guidedNoisePred scale uncond cond = cond) ∧
    uncond + 0 * (cond - uncond) = uncond := by
  refine ⟨?_, ?_, by ring⟩
  · intro h
    simp [guidedNoisePred, doClassifierFreeGuidance, h]
  · intro h
    simp [guidedNoisePred, doClassifierFreeGuidance, h]

/-- Witness for C7 amended at concrete inputs: scale 2 combines the two
predictions, scale 0 uses the conditional prediction. -/
theorem C7_guidance_rule_witness :
    guidedNoisePred 2 1 3 = 1 + 2 * (3 - 1) ∧ guidedNoisePred 0 1 3 = 3 :=
  ⟨(C7_guidance_rule 2 1 3).1 (by norm_num),
    (C7_guidance_rule 0 1 3).2.1 (by norm_num)⟩

end SMD3
